import Mathlib

/-!
Shallow embedding of the cargoa HSN pipeline core:
  * `compute_hierarchy_levels` (src/hsn_agent/src/tools/clean_norm.py) — the Level Assigner;
  * `build_hierarchy` (src/hsn_agent/src/tools/excel_to_hierarchy.py) — the Hierarchy Builder;
  * `flatten_hsn_json_with_inherited` (src/hsn_agent/src/tools/json_flatten.py) — the
    Inheritance Flattener.
Pandas cells are modelled by `Value`; DataFrames by a column list plus aligned
row lists; the builder's mutable `level_nodes` dict by an association list from
depth to a path into the forest (Python keeps live references, we keep paths —
children are only appended and nodes never removed, so recorded paths stay
valid).  File I/O around the flattener is not modelled: `flatten` consumes the
forest directly.
-/

namespace Cargoa

/-- A Python cell value as found in a pandas object column: `vNone` is Python
`None`, `vNaN` is the float-NaN missing marker (kept separate from `vNone`
because `str()` and note handling distinguish them), `vStr`/`vInt`/`vFloat`
are ordinary values; floats are modelled as rationals. -/
inductive Value where
  | vNone : Value
  | vNaN : Value
  | vStr : String → Value
  | vInt : Int → Value
  | vFloat : ℚ → Value
deriving DecidableEq, Repr, Inhabited

/-- `pd.notna` / `pd.isna`: only `None` and NaN are missing. -/
def pdNotNa : Value → Bool
  | .vNone => false
  | .vNaN => false
  | _ => true

/-- Python truthiness `bool(x)`: `None`, `""`, `0` are falsy; NaN is truthy. -/
def pyTruthy : Value → Bool
  | .vNone => false
  | .vNaN => true
  | .vStr s => s != ""
  | .vInt n => n != 0
  | .vFloat q => q != 0

/-- Python `str()` of a float.  The pipeline only ever stringifies integral
floats (rendered `"n.0"` as in Python); non-integral rationals get a total
fallback rendering that no claim evaluates. -/
def floatRepr (q : ℚ) : String :=
  if q.den = 1 then toString q.num ++ ".0"
  else toString q.num ++ "/" ++ toString q.den

/-- Python `str()` of a cell value (`str(None) = "None"`, `str(nan) = "nan"`). -/
def pyStr : Value → String
  | .vNone => "None"
  | .vNaN => "nan"
  | .vStr s => s
  | .vInt n => toString n
  | .vFloat q => floatRepr q

/-- Python string whitespace (`str.strip`, regex `\s`), ASCII range. -/
def isPyWs (c : Char) : Bool :=
  c == ' ' || c == '\t' || c == '\n' || c == '\r' || c == '\x0b' || c == '\x0c'

/-- Python `str.strip()`. -/
def pyStrip (s : String) : String :=
  String.mk (((s.toList.dropWhile isPyWs).reverse.dropWhile isPyWs).reverse)

/-- `re.sub(r"\s+", "", s)` / `.str.replace(r"\s+", "", regex=True)`:
drop every whitespace character. -/
def stripAllWs (s : String) : String :=
  String.mk (s.toList.filter (fun c => !(isPyWs c)))

/-- `re.fullmatch(r"\d{4}", s)`: exactly four digits. -/
def isDigitRun4 (s : String) : Bool :=
  s.length == 4 && s.toList.all Char.isDigit

/-- `re.fullmatch(r"-+", s)`: a nonempty run of hyphens. -/
def isHyphenRun (s : String) : Bool :=
  s != "" && s.toList.all (fun c => c == '-')

/-- Python `int()` on a float: truncation toward zero. -/
def pyIntOfFloat (q : ℚ) : Int :=
  q.num.tdiv q.den

/-- Python `str.lower()`, ASCII case folding. -/
def pyLower (s : String) : String :=
  String.mk (s.toList.map Char.toLower)

/-- Whether the second list begins with the first. -/
def charsStartWith : List Char → List Char → Bool
  | [], _ => true
  | _ :: _, [] => false
  | p :: ps, c :: cs => p == c && charsStartWith ps cs

/-- Python `str.startswith(t)`. -/
def pyStartsWith (s t : String) : Bool :=
  charsStartWith t.toList s.toList

/-- Python `x or ""`: keep `x` when truthy, else the empty string. -/
def pyOrEmpty (v : Value) : Value :=
  if pyTruthy v then v else .vStr ""

/-! ### Level Assigner — `compute_hierarchy_levels` (clean_norm.py) -/

/-- One input row of `compute_hierarchy_levels`: the raw `level` cell (hyphen
marker), `item_description`, `remark` and `hs_code`. -/
structure LevelRow where
  level : Value
  item_description : Value
  remark : Value
  hs_code : Value
deriving DecidableEq, Repr

/-- One output row: `raw_level` preserves the original marker, `level` is the
new numeric nesting level (`none` models pandas `None`). -/
structure LeveledRow where
  raw_level : Value
  item_description : Value
  remark : Value
  hs_code : Value
  level : Option Int
deriving DecidableEq, Repr

/-- `str(row["item_description"] or "").strip().lower().startswith("chapter")`. -/
def chapterDesc (r : LevelRow) : Bool :=
  pyStartsWith (pyLower (pyStrip (pyStr (pyOrEmpty r.item_description)))) "chapter"

/-- `seed_level`: chapter rows → 0; a string cell whose stripped form is a pure
hyphen run → run length; everything else → `None`. -/
def seedLevel (r : LevelRow) : Option Int :=
  if chapterDesc r then some 0
  else
    match r.level with
    | .vStr s => if isHyphenRun (pyStrip s) then some (pyStrip s).length else none
    | _ => none

/-- `df["remark"].astype(str).eq("Tariff")` for one row. -/
def isTariffRow (r : LevelRow) : Bool :=
  pyStr r.remark == "Tariff"

/-- The final `level` of one row after the three tariff override masks.  The
masks are applied in source order — (a) 4-digit → 1, then (b) hyphen-run
raw marker → run length + 1, then (c) remaining tariff rows → 1 — so for a
row in both (a) and (b), assignment (b) overwrites (a).  `mask_hyph` tests
`astype(str)` of the raw cell without stripping; its value lambda strips
(for a matching cell both agree: `fullmatch` admits no surrounding space). -/
def computeLevel (r : LevelRow) : Option Int :=
  if isTariffRow r then
    if isHyphenRun (pyStr r.level) then some ((pyStrip (pyStr r.level)).length + 1)
    else if isDigitRun4 (pyStr r.hs_code) then some 1
    else some 1
  else seedLevel r

/-- `compute_hierarchy_levels`: preserve `raw_level`, recompute `level`
row-by-row (every mask in the source is a per-row predicate). -/
def computeHierarchyLevels (rows : List LevelRow) : List LeveledRow :=
  rows.map (fun r =>
    { raw_level := r.level
      item_description := r.item_description
      remark := r.remark
      hs_code := r.hs_code
      level := computeLevel r })

/-! ### Hierarchy Builder — `build_hierarchy` (excel_to_hierarchy.py) -/

/-- A forest node: the row's cells as a dict (`fields`), plus the `notes` and
`children` lists the builder appends to.  (In Python these live in one dict;
the builder overwrites any `"notes"`/`"children"` column on creation, and no
reader ever looks those two keys up among the row cells.) -/
inductive Node where
  | mk : List (String × Value) → List String → List Node → Node

def Node.fields : Node → List (String × Value)
  | .mk f _ _ => f

def Node.notes : Node → List String
  | .mk _ n _ => n

def Node.children : Node → List Node
  | .mk _ _ c => c

/-- Python `node["children"].append(x)`. -/
def Node.addChild (x : Node) : Node → Node
  | .mk f n c => .mk f n (c ++ [x])

/-- Python repeated `node["notes"].append(t)`. -/
def Node.addNotes (ts : List String) : Node → Node
  | .mk f n c => .mk f (n ++ ts) c

/-- Python `d.get(k)` on a dict represented as an association list. -/
def dictGet (fields : List (String × Value)) (k : String) : Option Value :=
  (fields.find? (fun p => p.1 == k)).map (fun p => p.2)

/-- Python `node.get(k)` (default `None`). -/
def Node.get (n : Node) (k : String) : Value :=
  (dictGet n.fields k).getD .vNone

/-- A position in the forest: child indices from the root list down. -/
abbrev Path := List Nat

/-- The node at one index of a sibling list. -/
def getAt? : Nat → List Node → Option Node
  | _, [] => none
  | 0, n :: _ => some n
  | i+1, _ :: ns => getAt? i ns

/-- Rewrite the node at one index of a sibling list (identity out of range). -/
def modifyAt (g : Node → Node) : Nat → List Node → List Node
  | _, [] => []
  | 0, n :: ns => g n :: ns
  | i+1, n :: ns => n :: modifyAt g i ns

/-- The node a path points at, if any. -/
def getForest? : Path → List Node → Option Node
  | [], _ => none
  | [i], F => getAt? i F
  | i :: rest, F =>
      match getAt? i F with
      | some n => getForest? rest n.children
      | none => none

/-- Rewrite the node a path points at (identity on a dangling path). -/
def modifyForest (f : Node → Node) : Path → List Node → List Node
  | [], F => F
  | [i], F => modifyAt f i F
  | i :: rest, F =>
      modifyAt (fun n => Node.mk n.fields n.notes (modifyForest f rest n.children)) i F

/-- A pandas DataFrame: ordered column names plus rows of cells aligned with
the columns. -/
structure DataFrame where
  columns : List String
  rows : List (List Value)
deriving DecidableEq, Repr

/-- Header normalization:
`.str.strip().str.lower().str.replace(" ", "_").str.replace(r"[^\w]", "_")`. -/
def normHeader (s : String) : String :=
  let s1 := pyLower (pyStrip s)
  let s2 := String.mk (s1.toList.map (fun c => if c == ' ' then '_' else c))
  String.mk (s2.toList.map (fun c => if c.isAlphanum || c == '_' then c else '_'))

/-- Note-column normalization: `col.strip().lower().replace(" ", "_")`. -/
def normNoteCol (s : String) : String :=
  String.mk ((pyLower (pyStrip s)).toList.map (fun c => if c == ' ' then '_' else c))

/-- `row.get(k, d)`: the cell under column `k`, or `d` when the column is
absent. -/
def rowGetD (cols : List String) (row : List Value) (k : String) (d : Value) : Value :=
  ((cols.zip row).find? (fun p => p.1 == k)).elim d (fun p => p.2)

/-- `str(row.get(remark_col, "")).strip().lower()`. -/
def rowRemark (cols : List String) (remarkCol : String) (row : List Value) : String :=
  pyLower (pyStrip (pyStr (rowGetD cols row remarkCol (.vStr ""))))

/-- `int(raw_lvl) if pd.notna(raw_lvl) and isinstance(raw_lvl, (int, float))
else 0`: ints pass through, floats truncate toward zero, everything else
(strings, `None`, NaN) gives 0. -/
def rowDepth (raw : Value) : Int :=
  match raw with
  | .vInt n => n
  | .vFloat q => pyIntOfFloat q
  | _ => 0

/-- `isinstance(x, (int, float))`: NaN is a float in Python, so it counts as
numeric (although `pd.notna` then rejects it in the depth computation). -/
def isNumericValue : Value → Bool
  | .vInt _ => true
  | .vFloat _ => true
  | .vNaN => true
  | _ => false

/-- Node creation from a row: every column becomes a dict entry, NaN cells
becoming `None`; `notes` and `children` start empty. -/
def nodeOfRow (cols : List String) (row : List Value) : Node :=
  Node.mk ((cols.zip row).map (fun p => (p.1, if p.2 == Value.vNaN then Value.vNone else p.2))) [] []

/-- `df[hs_code_col].astype(str).str.replace(r"\s+", "", regex=True)` on one
cell. -/
def normalizeHsCell (v : Value) : Value :=
  .vStr (stripAllWs (pyStr v))

/-- Apply `f` to the cell at index `i` of a row. -/
def listModify (f : Value → Value) : Nat → List Value → List Value
  | _, [] => []
  | 0, v :: vs => f v :: vs
  | i+1, v :: vs => v :: listModify f i vs

/-- The builder's state: the growing root list and the open-ancestor map
`level_nodes`, stored as depth → path (insertion-ordered, like a dict). -/
structure BuildState where
  root : List Node
  levelNodes : List (Int × Path)

/-- `level_nodes[d]`. -/
def lookupDepth (m : List (Int × Path)) (d : Int) : Option Path :=
  (m.find? (fun e => e.1 == d)).map (fun e => e.2)

/-- `level_nodes[d] = p`: dict update keeps position, a new key is appended. -/
def setDepth (m : List (Int × Path)) (d : Int) (p : Path) : List (Int × Path) :=
  if m.any (fun e => e.1 == d) then m.map (fun e => if e.1 == d then (d, p) else e)
  else m ++ [(d, p)]

/-- `max([d for d in level_nodes if d < depth])`, or `none` when the
comprehension is empty. -/
def openAncestorDepth (m : List (Int × Path)) (depth : Int) : Option Int :=
  match (m.map (fun e => e.1)).filter (fun d => decide (d < depth)) with
  | [] => none
  | a :: rest => some (rest.foldl max a)

/-- Attach a freshly built node: depth 0 → root; otherwise under the open node
at the largest open depth below `depth`, or to root when none exists; then
register the node as open at `depth`.  The two inner `none` fallbacks are
unreachable — `openAncestorDepth` returns a key of the map, and recorded
paths always point at live nodes (children are only appended) — and mirror
the reachable orphan-promotion branch. -/
def attachNode (st : BuildState) (depth : Int) (node : Node) : BuildState :=
  if depth = 0 then
    { root := st.root ++ [node], levelNodes := setDepth st.levelNodes depth [st.root.length] }
  else
    match openAncestorDepth st.levelNodes depth with
    | none =>
        { root := st.root ++ [node], levelNodes := setDepth st.levelNodes depth [st.root.length] }
    | some dmax =>
        match lookupDepth st.levelNodes dmax with
        | none =>
            { root := st.root ++ [node], levelNodes := setDepth st.levelNodes depth [st.root.length] }
        | some pmax =>
            match getForest? pmax st.root with
            | none =>
                { root := st.root ++ [node],
                  levelNodes := setDepth st.levelNodes depth [st.root.length] }
            | some parent =>
                { root := modifyForest (Node.addChild node) pmax st.root,
                  levelNodes := setDepth st.levelNodes depth (pmax ++ [parent.children.length]) }

/-- The texts a note row contributes: the `for col in note_text_cols` loop —
for each configured note column present in the table, the cell (default
`None` via `row.get`), skipped only when it is a float NaN, otherwise
appended as `str(text).strip()`. -/
def noteTexts (cols : List String) (noteCols : List String) (row : List Value) : List String :=
  noteCols.foldl
    (fun acc c =>
      if cols.contains c then
        match rowGetD cols row c .vNone with
        | .vNaN => acc
        | v => acc ++ [pyStrip (pyStr v)]
      else acc)
    []

/-- Note-row handling: target the open depth-1 node, else the open depth-0
node, else drop; the target's `notes` gains the row's texts. -/
def attachNote (cols : List String) (noteCols : List String) (st : BuildState)
    (row : List Value) : BuildState :=
  match (lookupDepth st.levelNodes 1).orElse (fun _ => lookupDepth st.levelNodes 0) with
  | none => st
  | some p => { st with root := modifyForest (Node.addNotes (noteTexts cols noteCols row)) p st.root }

/-- One iteration of the `df.iterrows()` loop. -/
def buildStep (cols : List String) (noteCols : List String) (levelCol remarkCol : String)
    (st : BuildState) (row : List Value) : BuildState :=
  if rowRemark cols remarkCol row != "notes" then
    attachNode st (rowDepth (rowGetD cols row levelCol .vNone)) (nodeOfRow cols row)
  else attachNote cols noteCols st row

/-- The rows of the table that create nodes: those whose remark is not
`"notes"`. -/
def structuralRows (cols : List String) (remarkCol : String) (rows : List (List Value)) :
    List (List Value) :=
  rows.filter (fun r => rowRemark cols remarkCol r != "notes")

/-- The id a row's node carries into the flat records: its `hs_code` cell. -/
def rowId (cols : List String) (row : List Value) : Value :=
  (nodeOfRow cols row).get "hs_code"

/-- `build_hierarchy`: normalize headers, rewrite the `hs_code` column in
place (whitespace-stripped `str()`), normalize the note-column names
(`None` defaults to `["item_description"]`), then fold the per-row step.
The function returns the mutated DataFrame alongside the forest, making
the in-place mutation of the caller's table explicit; a missing
`hs_code_col` raises `KeyError` in Python, modelled as `none`. -/
def buildHierarchy (df : DataFrame) (levelCol : String := "level")
    (remarkCol : String := "remark") (noteTextCols : Option (List String) := none)
    (hsCodeCol : String := "hs_code") : Option (DataFrame × List Node) :=
  let cols := df.columns.map normHeader
  match cols.findIdx? (fun c => c == hsCodeCol) with
  | none => none
  | some i =>
      let rows := df.rows.map (listModify normalizeHsCell i)
      let noteCols := (noteTextCols.getD ["item_description"]).map normNoteCol
      let final := rows.foldl (buildStep cols noteCols levelCol remarkCol) ⟨[], []⟩
      some (⟨cols, rows⟩, final.root)

/-! ### Inheritance Flattener — `flatten_hsn_json_with_inherited` (json_flatten.py) -/

mutual
/-- The `hs_code` of a node followed by the ids of its descendants in
depth-first pre-order. -/
def nodeIds : Node → List Value
  | .mk f _ c => (dictGet f "hs_code").getD .vNone :: forestIdsList c

/-- Depth-first pre-order ids of a forest. -/
def forestIdsList : List Node → List Value
  | [] => []
  | n :: ns => nodeIds n ++ forestIdsList ns
end

/-- One flattened document, with the fixed keys the flattener emits. -/
structure FlatDoc where
  id : Value
  text : Value
  level : Value
  parent_id : Value
  parent_text : Value
  breadcrumb : String
  notes : List String
  unit : Value
  remark : Value
  basic_duty_sch : Value
  basic_duty_ntfn : Value
  igst : Value
  sws_10pct : Value
  total_duty_sws_10pct_on_bcd : Value
  pref_duty : Value
  import_policy : Value
  export_policy : Value
deriving DecidableEq, Repr

/-- Python `anc.get("level") in (0, 1)`: numeric equality, so float `0.0`/`1.0`
also qualify. -/
def levelIs01 (v : Value) : Bool :=
  v == .vInt 0 || v == .vInt 1 || v == .vFloat 0 || v == .vFloat 1

/-- The `for anc in reversed(ancestors): if ip: ... break` scan: the first
truthy value of `key` in the given order, if any. -/
def firstTruthy (key : String) : List Node → Option Value
  | [] => none
  | a :: rest => if pyTruthy (a.get key) then some (a.get key) else firstTruthy key rest

/-- Policy inheritance for one field: the node's own value when truthy,
otherwise the first truthy value scanning `reversed(ancestors)`
(nearest-to-farthest), otherwise the own (falsy) value unchanged. -/
def resolvePolicy (key : String) (n : Node) (ancestors : List Node) : Value :=
  let own := n.get key
  if pyTruthy own then own
  else
    match firstTruthy key ancestors.reverse with
    | some v => v
    | none => own

/-- The `for anc in ancestors` loop accumulating `inherited_notes`: the notes
of every ancestor whose `level` is 0 or 1, in chain order. -/
def inheritedNotes (ancestors : List Node) : List String :=
  ancestors.foldl (fun acc a => if levelIs01 (a.get "level") then acc ++ a.notes else acc) []

/-- The flattened document for one node, given its ancestor chain in
root-to-parent order.  Python joins the raw `item_description` values with
`" > "` (a `TypeError` if one is not a string); the embedding applies
`str()`, which agrees whenever every visited description is a string — the
hypothesis under which breadcrumb claims are stated. -/
def mkDoc (ancestors : List Node) (n : Node) : FlatDoc :=
  let parent? := ancestors.getLast?
  { id := n.get "hs_code"
    text := n.get "item_description"
    level := n.get "level"
    parent_id := (parent?.map (fun p => p.get "hs_code")).getD .vNone
    parent_text := (parent?.map (fun p => p.get "item_description")).getD .vNone
    breadcrumb :=
      String.intercalate " > " ((ancestors ++ [n]).map (fun m => pyStr (m.get "item_description")))
    notes := n.notes ++ inheritedNotes ancestors
    unit := n.get "unit"
    remark := n.get "remark"
    basic_duty_sch := n.get "basic_duty_sch_pct_display"
    basic_duty_ntfn := n.get "basic_duty_ntfn_pct_display"
    igst := n.get "igst_pct_display"
    sws_10pct := n.get "sws_10pct_display"
    total_duty_sws_10pct_on_bcd := n.get "total_duty_sws_10pct_on_bcd_display"
    pref_duty := n.get "pref_duty_a_pct_display"
    import_policy := resolvePolicy "import_policy_text" n ancestors
    export_policy := resolvePolicy "export_policy_text" n ancestors }

mutual
/-- `traverse(node, ancestors)`: emit the node's document, then recurse into
its children with the chain extended by the node. -/
def flattenNode (ancestors : List Node) : Node → List FlatDoc
  | .mk f nt c =>
      mkDoc ancestors (.mk f nt c) :: flattenForest (ancestors ++ [Node.mk f nt c]) c

/-- The children loop of `traverse`, in order. -/
def flattenForest (ancestors : List Node) : List Node → List FlatDoc
  | [] => []
  | n :: ns => flattenNode ancestors n ++ flattenForest ancestors ns
end

/-- `flatten_hsn_json_with_inherited`, with the JSON file boundary elided:
the forest is consumed directly. -/
def flatten (forest : List Node) : List FlatDoc :=
  flattenForest [] forest

/-- The three cases of the policy-inheritance rule for one field: a truthy own
value is used unchanged; otherwise the first truthy value of the ancestor
chain scanned nearest-to-farthest; otherwise the field carries no truthy
value. -/
def policySpec (key : String) (n : Node) (ancestors : List Node) (result : Value) : Prop :=
  (pyTruthy (n.get key) = true → result = n.get key)
  ∧ (pyTruthy (n.get key) = false →
      ∀ a, ancestors.reverse.find? (fun x => pyTruthy (x.get key)) = some a →
        result = a.get key)
  ∧ (pyTruthy (n.get key) = false →
      ancestors.reverse.find? (fun x => pyTruthy (x.get key)) = none →
      pyTruthy result = false)

/-! ### Helper lemmas about the forest structure -/

theorem forestIdsList_append (a b : List Node) :
    forestIdsList (a ++ b) = forestIdsList a ++ forestIdsList b := by
  induction a with
  | nil => simp [forestIdsList]
  | cons n ns ih => simp [forestIdsList, ih]

theorem forestIdsList_concat (F : List Node) (x : Node) :
    forestIdsList (F ++ [x]) = forestIdsList F ++ nodeIds x := by
  rw [forestIdsList_append]
  simp [forestIdsList]

theorem nodeIds_addNotes (ts : List String) (n : Node) :
    nodeIds (Node.addNotes ts n) = nodeIds n := by
  cases n
  rfl

theorem nodeIds_addChild (x n : Node) :
    nodeIds (Node.addChild x n) = nodeIds n ++ nodeIds x := by
  cases n with
  | mk f nt c => simp [Node.addChild, nodeIds, forestIdsList_append, forestIdsList]

theorem getAt?_eq_getElem? (i : Nat) (F : List Node) :
    getAt? i F = F[i]? := by
  induction F generalizing i with
  | nil => cases i <;> simp [getAt?]
  | cons n ns ih =>
      cases i with
      | zero => simp [getAt?]
      | succ i => simp [getAt?, ih]

theorem getAt?_modifyAt (g : Node → Node) (i : Nat) (F : List Node) :
    getAt? i (modifyAt g i F) = (getAt? i F).map g := by
  induction F generalizing i with
  | nil => cases i <;> simp [getAt?, modifyAt]
  | cons n ns ih =>
      cases i with
      | zero => simp [getAt?, modifyAt]
      | succ i => simp [getAt?, modifyAt, ih]

theorem getForest?_modifyForest (f : Node → Node) (p : Path) (F : List Node) (t : Node)
    (h : getForest? p F = some t) :
    getForest? p (modifyForest f p F) = some (f t) := by
  induction p generalizing F t with
  | nil => simp [getForest?] at h
  | cons i rest ih =>
      cases rest with
      | nil =>
          simp only [getForest?] at h ⊢
          simp [modifyForest, getAt?_modifyAt, h]
      | cons j rs =>
          simp only [getForest?] at h ⊢
          cases hg : getAt? i F with
          | none => rw [hg] at h; exact absurd h (by simp)
          | some n =>
              rw [hg] at h
              simp only [modifyForest, getAt?_modifyAt, hg, Option.map_some]
              simpa [Node.children] using ih n.children t h

theorem getForest?_singleton (i : Nat) (F : List Node) :
    getForest? [i] F = F[i]? := by
  simp [getForest?, getAt?_eq_getElem?]

theorem getForest?_append_last (p : Path) (i : Nat) (F : List Node) (hp : p ≠ []) :
    getForest? (p ++ [i]) F = (getForest? p F).bind (fun m => m.children[i]?) := by
  induction p generalizing F with
  | nil => exact absurd rfl hp
  | cons j rest ih =>
      cases rest with
      | nil =>
          simp only [List.cons_append, List.nil_append, getForest?]
          cases hg : getAt? j F with
          | none => simp
          | some n => simp [getForest?, getAt?_eq_getElem?]
      | cons k rs =>
          have hne : (k :: rs) ≠ [] := by simp
          simp only [List.cons_append, getForest?]
          cases hg : getAt? j F with
          | none => simp
          | some n => simpa using ih n.children hne

theorem modifyAt_ids_preserve (g : Node → Node) (hg : ∀ n, nodeIds (g n) = nodeIds n)
    (i : Nat) (F : List Node) :
    forestIdsList (modifyAt g i F) = forestIdsList F := by
  induction F generalizing i with
  | nil => cases i <;> rfl
  | cons n ns ih =>
      cases i with
      | zero => simp [modifyAt, forestIdsList, hg]
      | succ i => simp [modifyAt, forestIdsList, ih]

theorem modifyForest_preserve_ids (f : Node → Node) (hf : ∀ n, nodeIds (f n) = nodeIds n)
    (p : Path) (F : List Node) :
    forestIdsList (modifyForest f p F) = forestIdsList F := by
  induction p generalizing F with
  | nil => simp [modifyForest]
  | cons i rest ih =>
      cases rest with
      | nil => simpa [modifyForest] using modifyAt_ids_preserve f hf i F
      | cons j rs =>
          simp only [modifyForest]
          refine modifyAt_ids_preserve _ (fun n => ?_) i F
          cases n with
          | mk fl nt c =>
              simp [nodeIds, Node.fields, Node.notes, Node.children, ih c]

theorem coe_list_append (a b : List Value) :
    (↑(a ++ b) : Multiset Value) = ↑a + ↑b := by
  simp

theorem modifyAt_split (g : Node → Node) (i : Nat) (F : List Node) (n : Node)
    (h : getAt? i F = some n) :
    ∃ A B : List Value,
      forestIdsList F = A ++ (nodeIds n ++ B)
      ∧ forestIdsList (modifyAt g i F) = A ++ (nodeIds (g n) ++ B) := by
  induction F generalizing i with
  | nil => simp [getAt?] at h
  | cons m ns ih =>
      cases i with
      | zero =>
          simp only [getAt?, Option.some.injEq] at h
          subst h
          exact ⟨[], forestIdsList ns, by simp [forestIdsList], by simp [modifyAt, forestIdsList]⟩
      | succ i =>
          simp only [getAt?] at h
          obtain ⟨A, B, h1, h2⟩ := ih i h
          refine ⟨nodeIds m ++ A, B, ?_, ?_⟩
          · simp [forestIdsList, h1]
          · simp [modifyAt, forestIdsList, h2]

theorem modifyForest_addChild_ids (x : Node) (p : Path) (F : List Node)
    (h : (getForest? p F).isSome) :
    (↑(forestIdsList (modifyForest (Node.addChild x) p F)) : Multiset Value)
      = ↑(forestIdsList F) + ↑(nodeIds x) := by
  induction p generalizing F with
  | nil => simp [getForest?] at h
  | cons i rest ih =>
      cases rest with
      | nil =>
          simp only [getForest?] at h
          cases hg : getAt? i F with
          | none => rw [hg] at h; simp at h
          | some n =>
              obtain ⟨A, B, h1, h2⟩ := modifyAt_split (Node.addChild x) i F n hg
              rw [modifyForest, h2, h1, nodeIds_addChild]
              repeat rw [coe_list_append]
              abel
      | cons j rs =>
          simp only [getForest?] at h
          cases hg : getAt? i F with
          | none => rw [hg] at h; simp at h
          | some n =>
              rw [hg] at h
              have hrec := ih n.children h
              obtain ⟨A, B, h1, h2⟩ :=
                modifyAt_split
                  (fun m => Node.mk m.fields m.notes
                    (modifyForest (Node.addChild x) (j :: rs) m.children))
                  i F n hg
              have hunf : modifyForest (Node.addChild x) (i :: j :: rs) F
                  = modifyAt (fun m => Node.mk m.fields m.notes
                      (modifyForest (Node.addChild x) (j :: rs) m.children)) i F := rfl
              rw [hunf, h2, h1]
              cases n with
              | mk fl nt c =>
                  simp only [Node.fields, Node.notes, Node.children, nodeIds] at hrec ⊢
                  repeat rw [coe_list_append]
                  rw [← Multiset.cons_coe, ← Multiset.cons_coe, ← Multiset.singleton_add,
                    ← Multiset.singleton_add, hrec]
                  abel

/-! ### Helper lemmas about the builder state -/

theorem setDepth_cons_ne (e : Int × Path) (es : List (Int × Path)) (d : Int) (p : Path)
    (he : (e.1 == d) = false) :
    setDepth (e :: es) d p = e :: setDepth es d p := by
  unfold setDepth
  by_cases ha : es.any (fun x => x.1 == d)
  · simp [ha, he]
    intro hcontra
    exact absurd hcontra (by simpa using he)
  · simp [ha, he]

theorem lookupDepth_setDepth (m : List (Int × Path)) (d : Int) (p : Path) :
    lookupDepth (setDepth m d p) d = some p := by
  induction m with
  | nil => simp [setDepth, lookupDepth]
  | cons e es ih =>
      by_cases he : (e.1 == d) = true
      · have hany : (e :: es).any (fun x => x.1 == d) = true := by simp [List.any_cons, he]
        have he' : e.1 = d := by simpa using he
        simp [setDepth, hany, lookupDepth, List.find?_cons, he']
      · rw [setDepth_cons_ne e es d p (by simpa using he)]
        simpa [lookupDepth, List.find?_cons, he] using ih

theorem le_foldl_max (l : List Int) (a : Int) :
    a ≤ l.foldl max a ∧ ∀ x ∈ l, x ≤ l.foldl max a := by
  induction l generalizing a with
  | nil => simp
  | cons b bs ih =>
      have h := ih (max a b)
      refine ⟨le_trans (le_max_left a b) h.1, ?_⟩
      intro x hx
      rcases List.mem_cons.mp hx with rfl | hmem
      · exact le_trans (le_max_right a x) h.1
      · exact h.2 x hmem

theorem foldl_max_mem (l : List Int) (a : Int) :
    l.foldl max a = a ∨ l.foldl max a ∈ l := by
  induction l generalizing a with
  | nil => left; rfl
  | cons b bs ih =>
      rcases ih (max a b) with h | h
      · rcases max_choice a b with hc | hc
        · left; rw [List.foldl_cons, h, hc]
        · right; rw [List.foldl_cons, h, hc]; exact List.mem_cons_self b bs
      · right; exact List.mem_cons_of_mem _ h

theorem openAncestorDepth_spec (m : List (Int × Path)) (depth dmax : Int)
    (hmem : dmax ∈ m.map (fun e => e.1)) (hlt : dmax < depth)
    (hmax : ∀ y ∈ m.map (fun e => e.1), y < depth → y ≤ dmax) :
    openAncestorDepth m depth = some dmax := by
  unfold openAncestorDepth
  have hdf : dmax ∈ (m.map (fun e => e.1)).filter (fun d => decide (d < depth)) :=
    List.mem_filter.mpr ⟨hmem, by simpa using hlt⟩
  cases hf : (m.map (fun e => e.1)).filter (fun d => decide (d < depth)) with
  | nil => rw [hf] at hdf; simp at hdf
  | cons a rest =>
      rw [hf] at hdf
      have hsub : ∀ x ∈ a :: rest, x ∈ m.map (fun e => e.1) ∧ x < depth := by
        intro x hx
        rw [← hf] at hx
        have := List.mem_filter.mp hx
        exact ⟨this.1, by simpa using this.2⟩
      have hval : rest.foldl max a = a ∨ rest.foldl max a ∈ rest := foldl_max_mem rest a
      have hvin : rest.foldl max a ∈ a :: rest := by
        rcases hval with h | h
        · rw [h]; exact List.mem_cons_self a rest
        · exact List.mem_cons_of_mem a h
      have h1 : rest.foldl max a ≤ dmax :=
        hmax _ (hsub _ hvin).1 (hsub _ hvin).2
      have h2 : dmax ≤ rest.foldl max a := by
        rcases List.mem_cons.mp hdf with rfl | hmem'
        · exact (le_foldl_max rest dmax).1
        · exact (le_foldl_max rest a).2 dmax hmem'
      exact congrArg some (le_antisymm h1 h2)

theorem nodeIds_nodeOfRow (cols : List String) (row : List Value) :
    nodeIds (nodeOfRow cols row) = [rowId cols row] := by
  rfl

theorem attachNode_ids (st : BuildState) (d : Int) (node : Node) :
    (↑(forestIdsList (attachNode st d node).root) : Multiset Value)
      = ↑(forestIdsList st.root) + ↑(nodeIds node) := by
  by_cases hd : d = 0
  · have hroot : (attachNode st d node).root = st.root ++ [node] := by
      simp [attachNode, hd]
    rw [hroot, forestIdsList_concat, coe_list_append]
  · cases h1 : openAncestorDepth st.levelNodes d with
    | none =>
        have hroot : (attachNode st d node).root = st.root ++ [node] := by
          simp [attachNode, hd, h1]
        rw [hroot, forestIdsList_concat, coe_list_append]
    | some dmax =>
        cases h2 : lookupDepth st.levelNodes dmax with
        | none =>
            have hroot : (attachNode st d node).root = st.root ++ [node] := by
              simp [attachNode, hd, h1, h2]
            rw [hroot, forestIdsList_concat, coe_list_append]
        | some pmax =>
            cases h3 : getForest? pmax st.root with
            | none =>
                have hroot : (attachNode st d node).root = st.root ++ [node] := by
                  simp [attachNode, hd, h1, h2, h3]
                rw [hroot, forestIdsList_concat, coe_list_append]
            | some parent =>
                have hroot : (attachNode st d node).root
                    = modifyForest (Node.addChild node) pmax st.root := by
                  simp [attachNode, hd, h1, h2, h3]
                rw [hroot]
                exact modifyForest_addChild_ids node pmax st.root (by simp [h3])

theorem attachNote_ids (cols noteCols : List String) (st : BuildState) (row : List Value) :
    forestIdsList (attachNote cols noteCols st row).root = forestIdsList st.root := by
  unfold attachNote
  cases h : (lookupDepth st.levelNodes 1).orElse (fun _ => lookupDepth st.levelNodes 0) with
  | none => rfl
  | some p => exact modifyForest_preserve_ids _ (nodeIds_addNotes _) p st.root

theorem attachNote_levelNodes (cols noteCols : List String) (st : BuildState)
    (row : List Value) :
    (attachNote cols noteCols st row).levelNodes = st.levelNodes := by
  unfold attachNote
  cases h : (lookupDepth st.levelNodes 1).orElse (fun _ => lookupDepth st.levelNodes 0) <;> rfl

theorem buildStep_ids (cols noteCols : List String) (lc rc : String) (st : BuildState)
    (row : List Value) :
    (↑(forestIdsList (buildStep cols noteCols lc rc st row).root) : Multiset Value)
      = ↑(forestIdsList st.root)
        + ↑(if rowRemark cols rc row != "notes" then [rowId cols row] else []) := by
  by_cases h : (rowRemark cols rc row != "notes") = true
  · rw [if_pos h]
    unfold buildStep
    rw [if_pos h, ← nodeIds_nodeOfRow cols row]
    exact attachNode_ids st _ _
  · rw [if_neg h]
    unfold buildStep
    rw [if_neg h, attachNote_ids]
    simp

theorem foldBuild_ids (cols noteCols : List String) (lc rc : String)
    (rows : List (List Value)) (st : BuildState) :
    (↑(forestIdsList ((rows.foldl (buildStep cols noteCols lc rc) st).root)) : Multiset Value)
      = ↑(forestIdsList st.root) + ↑((structuralRows cols rc rows).map (rowId cols)) := by
  induction rows generalizing st with
  | nil => simp [structuralRows]
  | cons r rs ih =>
      rw [List.foldl_cons]
      rw [ih (buildStep cols noteCols lc rc st r), buildStep_ids]
      by_cases h : (rowRemark cols rc r != "notes") = true
      · rw [if_pos h]
        have hsr : structuralRows cols rc (r :: rs) = r :: structuralRows cols rc rs := by
          simp [structuralRows, List.filter_cons, h]
        rw [hsr, List.map_cons, ← Multiset.cons_coe, ← Multiset.singleton_add]
        simp only [← Multiset.cons_coe, ← Multiset.singleton_add, Multiset.coe_nil]
        abel
      · rw [if_neg h]
        have : structuralRows cols rc (r :: rs) = structuralRows cols rc rs := by
          simp only [structuralRows, List.filter_cons]
          simp [h]
        rw [this]
        simp

/-! ### Helper lemmas about the flattener -/

mutual
theorem flattenNode_ids (anc : List Node) (n : Node) :
    (flattenNode anc n).map FlatDoc.id = nodeIds n := by
  cases n with
  | mk f nt c =>
      simp [flattenNode, nodeIds, mkDoc, Node.get, Node.fields,
        flattenForest_ids (anc ++ [Node.mk f nt c]) c]

theorem flattenForest_ids (anc : List Node) (F : List Node) :
    (flattenForest anc F).map FlatDoc.id = forestIdsList F := by
  cases F with
  | nil => simp [flattenForest, forestIdsList]
  | cons n ns =>
      simp [flattenForest, forestIdsList, flattenNode_ids anc n, flattenForest_ids anc ns]
end

theorem inheritedNotes_eq (ancs : List Node) :
    inheritedNotes ancs
      = (ancs.filter (fun a => levelIs01 (a.get "level"))).flatMap Node.notes := by
  suffices h : ∀ acc : List String,
      ancs.foldl (fun acc a => if levelIs01 (a.get "level") then acc ++ a.notes else acc) acc
        = acc ++ (ancs.filter (fun a => levelIs01 (a.get "level"))).flatMap Node.notes by
    simpa [inheritedNotes] using h []
  induction ancs with
  | nil => intro acc; simp
  | cons a as ih =>
      intro acc
      by_cases h : levelIs01 (a.get "level") = true
      · simp [List.foldl_cons, h, ih, List.filter_cons]
      · simp [List.foldl_cons, h, ih, List.filter_cons]

theorem firstTruthy_eq_find? (key : String) (l : List Node) :
    firstTruthy key l
      = (l.find? (fun a => pyTruthy (a.get key))).map (fun a => a.get key) := by
  induction l with
  | nil => rfl
  | cons a rest ih =>
      by_cases h : pyTruthy (a.get key) = true
      · simp [firstTruthy, h, List.find?_cons]
      · simp [firstTruthy, h, List.find?_cons, ih]

theorem resolvePolicy_spec (key : String) (n : Node) (ancestors : List Node) :
    policySpec key n ancestors (resolvePolicy key n ancestors) := by
  unfold policySpec resolvePolicy
  refine ⟨fun h => by simp [h], fun h a hfind => ?_, fun h hfind => ?_⟩
  · rw [firstTruthy_eq_find? key ancestors.reverse]
    simp [h, hfind]
  · rw [firstTruthy_eq_find? key ancestors.reverse]
    simp [h, hfind]

theorem listModify_getElem? (f : Value → Value) (i : Nat) (l : List Value) (k : Nat) :
    (listModify f i l)[k]? = if k = i then (l[i]?).map f else l[k]? := by
  induction l generalizing i k with
  | nil => cases i <;> cases k <;> simp [listModify]
  | cons v vs ih =>
      cases i with
      | zero => cases k with
        | zero => simp [listModify]
        | succ k => simp [listModify]
      | succ i =>
          cases k with
          | zero => simp [listModify]
          | succ k => simpa [listModify, Nat.succ_inj] using ih i k

/-! ### Claims -/

/-- C1, counterexample: a tariff-type row with the 4-digit code `"1234"` whose
raw marker is the pure hyphen run `"--"` gets level 3 (run length + 1), not
level 1 — the hyphen-run override is applied after the 4-digit rule and
overwrites it. -/
theorem claim1_counterexample :
    isTariffRow ⟨.vStr "--", .vStr "widgets", .vStr "Tariff", .vStr "1234"⟩ = true
    ∧ isDigitRun4 (pyStr (LevelRow.hs_code ⟨.vStr "--", .vStr "widgets", .vStr "Tariff", .vStr "1234"⟩)) = true
    ∧ isHyphenRun (pyStr (LevelRow.level ⟨.vStr "--", .vStr "widgets", .vStr "Tariff", .vStr "1234"⟩)) = true
    ∧ computeLevel ⟨.vStr "--", .vStr "widgets", .vStr "Tariff", .vStr "1234"⟩ = some 3
    ∧ computeLevel ⟨.vStr "--", .vStr "widgets", .vStr "Tariff", .vStr "1234"⟩ ≠ some 1 := by
  refine ⟨rfl, rfl, rfl, rfl, ?_⟩
  decide

/-- C1, amended: a tariff-type row with a classification code of exactly 4
digits gets level 1 unless its raw marker's string form is a pure hyphen
run, in which case the later hyphen-run mask overwrites the 4-digit mask
and the level is the stripped run length + 1. -/
theorem claim1_theorem (r : LevelRow) (htar : isTariffRow r = true)
    (h4 : isDigitRun4 (pyStr r.hs_code) = true) :
    computeLevel r
      = if isHyphenRun (pyStr r.level) then some (((pyStrip (pyStr r.level)).length : Int) + 1)
        else some 1 := by
  unfold computeLevel
  rw [if_pos htar]
  by_cases hh : isHyphenRun (pyStr r.level) = true
  · rw [if_pos hh, if_pos hh]
  · rw [if_neg hh, if_neg hh, if_pos h4]

/-- C1, witness for the amended theorem at a concrete tariff row with 4-digit
code and a non-hyphen marker. -/
theorem claim1_witness :
    computeLevel ⟨.vNone, .vStr "widgets", .vStr "Tariff", .vStr "1234"⟩ = some 1 := by
  have h := claim1_theorem ⟨.vNone, .vStr "widgets", .vStr "Tariff", .vStr "1234"⟩ rfl rfl
  simpa using h

/-- C3, counterexample: a tariff-type row whose description starts with
"chapter" (after trimming and case-folding) gets level 1, not 0 — the
tariff override pass overwrites the chapter seed. -/
theorem claim3_counterexample :
    chapterDesc ⟨.vNone, .vStr "Chapter 1", .vStr "Tariff", .vStr "12"⟩ = true
    ∧ computeLevel ⟨.vNone, .vStr "Chapter 1", .vStr "Tariff", .vStr "12"⟩ = some 1
    ∧ computeLevel ⟨.vNone, .vStr "Chapter 1", .vStr "Tariff", .vStr "12"⟩ ≠ some 0 := by
  refine ⟨by decide, rfl, by decide⟩

/-- C3, amended: every row that is not tariff-type and whose description
(after `or ""`, trimming and case-folding) starts with "chapter" gets
level 0; tariff-type rows are overridden by the tariff masks instead. -/
theorem claim3_theorem (r : LevelRow) (hchap : chapterDesc r = true)
    (htar : isTariffRow r = false) :
    computeLevel r = some 0 := by
  unfold computeLevel
  rw [if_neg (by simp [htar])]
  unfold seedLevel
  rw [if_pos hchap]

/-- C3, witness for the amended theorem at a concrete non-tariff chapter row. -/
theorem claim3_witness :
    computeLevel ⟨.vNone, .vStr "  CHAPTER 5 Products", .vStr "nan", .vStr "0501"⟩ = some 0 :=
  claim3_theorem ⟨.vNone, .vStr "  CHAPTER 5 Products", .vStr "nan", .vStr "0501"⟩ (by decide) (by decide)

/-- C2, counterexample: two structural rows of depths 0 then 2 (skipping
depth 1) build a forest with a single root — the depth-2 node (code "2") is
attached as the child of the depth-0 node at path [0, 0], not promoted to
the root list (which the claim would require to have length 2). -/
theorem claim2_counterexample :
    ((buildHierarchy ⟨["level", "remark", "hs_code", "item_description"],
        [[.vInt 0, .vStr "Tariff", .vStr "1", .vStr "A"],
         [.vInt 2, .vStr "Tariff", .vStr "2", .vStr "B"]]⟩).map
      (fun p => (p.2.length, (getForest? [0, 0] p.2).map (fun n => n.get "hs_code"))))
      = some (1, some (.vStr "2"))
    ∧ (1 : Nat) ≠ 2 := by
  exact ⟨rfl, by decide⟩

/-- C2, amended: given rows of depths [0, 2] (no depth-1 row in between), the
depth-2 node is appended to the children of the depth-0 node — the nearest
shallower open ancestor — and promotion to the root list happens only when
no open depth strictly below exists. -/
theorem claim2_theorem (ha hb da db : String) :
    buildHierarchy
      ⟨["level", "remark", "hs_code", "item_description"],
       [[.vInt 0, .vStr "Tariff", .vStr ha, .vStr da],
        [.vInt 2, .vStr "Tariff", .vStr hb, .vStr db]]⟩
      = some
        (⟨["level", "remark", "hs_code", "item_description"],
          [[.vInt 0, .vStr "Tariff", .vStr (stripAllWs ha), .vStr da],
           [.vInt 2, .vStr "Tariff", .vStr (stripAllWs hb), .vStr db]]⟩,
         [Node.mk [("level", .vInt 0), ("remark", .vStr "Tariff"),
             ("hs_code", .vStr (stripAllWs ha)), ("item_description", .vStr da)] []
            [Node.mk [("level", .vInt 2), ("remark", .vStr "Tariff"),
               ("hs_code", .vStr (stripAllWs hb)), ("item_description", .vStr db)] [] []]]) := by
  rfl

/-- C4: for a structural row of positive depth, if no open depth lies strictly
below, the node is appended to the root list (orphan promotion); otherwise
it is appended to the children of the open node at the largest open depth
strictly below, and in both cases the node becomes the open ancestor at its
depth. -/
theorem claim4_theorem (cols noteCols : List String) (lc rc : String)
    (st : BuildState) (row : List Value) (d : Int)
    (hrem : (rowRemark cols rc row != "notes") = true)
    (hd : rowDepth (rowGetD cols row lc .vNone) = d) (hdpos : 0 < d) :
    (((st.levelNodes.map (fun e => e.1)).filter (fun y => decide (y < d)) = [] →
        buildStep cols noteCols lc rc st row
          = { root := st.root ++ [nodeOfRow cols row],
              levelNodes := setDepth st.levelNodes d [st.root.length] })
      ∧ (∀ dmax pmax parent,
          dmax ∈ st.levelNodes.map (fun e => e.1) → dmax < d →
          (∀ y ∈ st.levelNodes.map (fun e => e.1), y < d → y ≤ dmax) →
          lookupDepth st.levelNodes dmax = some pmax →
          getForest? pmax st.root = some parent →
          (buildStep cols noteCols lc rc st row).root
              = modifyForest (Node.addChild (nodeOfRow cols row)) pmax st.root
          ∧ getForest? pmax (buildStep cols noteCols lc rc st row).root
              = some (Node.mk parent.fields parent.notes
                  (parent.children ++ [nodeOfRow cols row]))
          ∧ getForest? (pmax ++ [parent.children.length])
                (buildStep cols noteCols lc rc st row).root
              = some (nodeOfRow cols row)
          ∧ lookupDepth (buildStep cols noteCols lc rc st row).levelNodes d
              = some (pmax ++ [parent.children.length]))) := by
  have hne0 : ¬(d = 0) := by omega
  have hstep : buildStep cols noteCols lc rc st row = attachNode st d (nodeOfRow cols row) := by
    unfold buildStep
    rw [if_pos hrem, hd]
  constructor
  · intro hfil
    have hoa : openAncestorDepth st.levelNodes d = none := by
      unfold openAncestorDepth
      rw [hfil]
    rw [hstep]
    simp [attachNode, hne0, hoa]
  · intro dmax pmax parent hmem hlt hmax hlook hget
    have hoa : openAncestorDepth st.levelNodes d = some dmax :=
      openAncestorDepth_spec st.levelNodes d dmax hmem hlt hmax
    have hstate : attachNode st d (nodeOfRow cols row)
        = { root := modifyForest (Node.addChild (nodeOfRow cols row)) pmax st.root,
            levelNodes := setDepth st.levelNodes d (pmax ++ [parent.children.length]) } := by
      simp [attachNode, hne0, hoa, hlook, hget]
    have hmod := getForest?_modifyForest (Node.addChild (nodeOfRow cols row)) pmax st.root
      parent hget
    have hp_ne : pmax ≠ [] := by
      intro hnil
      rw [hnil] at hget
      simp [getForest?] at hget
    rw [hstep, hstate]
    refine ⟨rfl, ?_, ?_, ?_⟩
    · cases parent with
      | mk f nt c => simpa [Node.addChild, Node.fields, Node.notes, Node.children] using hmod
    · rw [getForest?_append_last pmax _ _ hp_ne, hmod]
      cases parent with
      | mk f nt c =>
          simp [Node.addChild, Node.children]
    · exact lookupDepth_setDepth st.levelNodes d (pmax ++ [parent.children.length])

/-- C4, witness: the attachment theorem applied to a concrete state with an
open depth-0 node and a structural row of depth 2. -/
theorem claim4_witness :
    getForest? [0, 0]
        (buildStep ["level", "remark", "hs_code", "item_description"] ["item_description"]
          "level" "remark"
          ⟨[Node.mk [("hs_code", .vStr "A0")] [] []], [(0, [0])]⟩
          [.vInt 2, .vStr "Tariff", .vStr "22", .vStr "B"]).root
      = some (nodeOfRow ["level", "remark", "hs_code", "item_description"]
          [.vInt 2, .vStr "Tariff", .vStr "22", .vStr "B"])
    ∧ lookupDepth
        (buildStep ["level", "remark", "hs_code", "item_description"] ["item_description"]
          "level" "remark"
          ⟨[Node.mk [("hs_code", .vStr "A0")] [] []], [(0, [0])]⟩
          [.vInt 2, .vStr "Tariff", .vStr "22", .vStr "B"]).levelNodes 2
      = some [0, 0] := by
  have h0 := claim4_theorem ["level", "remark", "hs_code", "item_description"]
      ["item_description"] "level" "remark"
      ⟨[Node.mk [("hs_code", .vStr "A0")] [] []], [(0, [0])]⟩
      [.vInt 2, .vStr "Tariff", .vStr "22", .vStr "B"] 2 (by decide) rfl (by decide)
  have h := h0.2 0 [0] (Node.mk [("hs_code", .vStr "A0")] [] [])
      (by decide) (by decide) (by decide) rfl rfl
  exact ⟨h.2.2.1, by simpa using h.2.2.2⟩

/-- C5, counterexample: a note row whose description cell is the empty string
is not skipped — the empty string is appended to the target node's notes,
while the claim requires empty values to be skipped. -/
theorem claim5_counterexample :
    ((buildHierarchy ⟨["level", "remark", "hs_code", "item_description"],
        [[.vInt 0, .vStr "Tariff", .vStr "01", .vStr "A"],
         [.vNone, .vStr "Notes", .vStr "", .vStr ""]]⟩).map
      (fun p => (getForest? [0] p.2).map Node.notes))
      = some (some [""])
    ∧ ([""] : List String) ≠ [] := by
  exact ⟨rfl, by decide⟩

/-- C5, amended: a note row appends, for each configured note column present
in the table, `str(cell).strip()` to the notes of the open depth-1 node if
one exists, else the open depth-0 node, else drops the note without
raising; only NaN cells are skipped (empty strings are appended as empty
strings); a note row never creates a node and never changes the
open-ancestor map. -/
theorem claim5_theorem (cols noteCols : List String) (lc rc : String)
    (st : BuildState) (row : List Value)
    (hrem : rowRemark cols rc row = "notes") :
    ((buildStep cols noteCols lc rc st row).levelNodes = st.levelNodes)
    ∧ (forestIdsList (buildStep cols noteCols lc rc st row).root = forestIdsList st.root)
    ∧ (∀ p t, lookupDepth st.levelNodes 1 = some p → getForest? p st.root = some t →
        getForest? p (buildStep cols noteCols lc rc st row).root
          = some (Node.mk t.fields (t.notes ++ noteTexts cols noteCols row) t.children))
    ∧ (∀ p t, lookupDepth st.levelNodes 1 = none → lookupDepth st.levelNodes 0 = some p →
        getForest? p st.root = some t →
        getForest? p (buildStep cols noteCols lc rc st row).root
          = some (Node.mk t.fields (t.notes ++ noteTexts cols noteCols row) t.children))
    ∧ (lookupDepth st.levelNodes 1 = none → lookupDepth st.levelNodes 0 = none →
        buildStep cols noteCols lc rc st row = st) := by
  have hstep : buildStep cols noteCols lc rc st row = attachNote cols noteCols st row := by
    unfold buildStep
    rw [if_neg (by simp [hrem])]
  refine ⟨?_, ?_, ?_, ?_, ?_⟩
  · rw [hstep, attachNote_levelNodes]
  · rw [hstep, attachNote_ids]
  · intro p t h1 hg
    have hroot : (attachNote cols noteCols st row).root
        = modifyForest (Node.addNotes (noteTexts cols noteCols row)) p st.root := by
      simp [attachNote, h1, Option.orElse]
    rw [hstep, hroot]
    have := getForest?_modifyForest (Node.addNotes (noteTexts cols noteCols row)) p st.root t hg
    cases t with
    | mk f nt c => simpa [Node.addNotes, Node.fields, Node.notes, Node.children] using this
  · intro p t h1 h0 hg
    have hroot : (attachNote cols noteCols st row).root
        = modifyForest (Node.addNotes (noteTexts cols noteCols row)) p st.root := by
      simp [attachNote, h1, h0, Option.orElse]
    rw [hstep, hroot]
    have := getForest?_modifyForest (Node.addNotes (noteTexts cols noteCols row)) p st.root t hg
    cases t with
    | mk f nt c => simpa [Node.addNotes, Node.fields, Node.notes, Node.children] using this
  · intro h1 h0
    rw [hstep]
    simp [attachNote, h1, h0, Option.orElse]

/-- C5, witness: the amended note behaviour at a concrete state with open
depth-0 and depth-1 nodes and a note row carrying the text " x ". -/
theorem claim5_witness :
    getForest? [0, 0]
        (buildStep ["level", "remark", "hs_code", "item_description"] ["item_description"]
          "level" "remark"
          ⟨[Node.mk [("hs_code", .vStr "A0")] []
              [Node.mk [("hs_code", .vStr "A1")] ["old"] []]],
            [(0, [0]), (1, [0, 0])]⟩
          [.vNone, .vStr "Notes", .vStr "", .vStr " x "]).root
      = some (Node.mk [("hs_code", .vStr "A1")] ["old", "x"] []) := by
  have h0 := claim5_theorem ["level", "remark", "hs_code", "item_description"]
      ["item_description"] "level" "remark"
      ⟨[Node.mk [("hs_code", .vStr "A0")] []
          [Node.mk [("hs_code", .vStr "A1")] ["old"] []]],
        [(0, [0]), (1, [0, 0])]⟩
      [.vNone, .vStr "Notes", .vStr "", .vStr " x "] (by decide)
  have h := h0.2.2.1 [0, 0] (Node.mk [("hs_code", .vStr "A1")] ["old"] []) rfl rfl
  simpa using h

/-- C10: a structural row whose level cell is not numeric (not an int, float
or NaN — e.g. a digit string or `None`) gets depth 0 and is appended to the
forest root list and registered as the open depth-0 node; and a float level
cell yields its `int()` truncation toward zero as depth. -/
theorem claim10_theorem (cols noteCols : List String) (lc rc : String)
    (st : BuildState) (row : List Value)
    (hrem : (rowRemark cols rc row != "notes") = true)
    (hnn : isNumericValue (rowGetD cols row lc .vNone) = false) :
    buildStep cols noteCols lc rc st row
      = { root := st.root ++ [nodeOfRow cols row],
          levelNodes := setDepth st.levelNodes 0 [st.root.length] }
    ∧ (∀ q : ℚ, rowDepth (.vFloat q) = pyIntOfFloat q) := by
  have hdepth : rowDepth (rowGetD cols row lc .vNone) = 0 := by
    cases hv : rowGetD cols row lc .vNone <;> simp [hv, isNumericValue] at hnn ⊢ <;>
      simp [rowDepth]
  constructor
  · unfold buildStep
    rw [if_pos hrem, hdepth]
    simp [attachNode]
  · intro q
    rfl

/-- C10, witness: a structural row whose level cell is the digit string "2" is
appended to the root list even though an open depth-0 node exists. -/
theorem claim10_witness :
    buildStep ["level", "remark", "hs_code", "item_description"] ["item_description"]
        "level" "remark"
        ⟨[Node.mk [("hs_code", .vStr "A0")] [] []], [(0, [0])]⟩
        [.vStr "2", .vStr "Tariff", .vStr "22", .vStr "B"]
      = { root := [Node.mk [("hs_code", .vStr "A0")] [] [],
            nodeOfRow ["level", "remark", "hs_code", "item_description"]
              [.vStr "2", .vStr "Tariff", .vStr "22", .vStr "B"]],
          levelNodes := [(0, [1])] } := by
  have h0 := claim10_theorem ["level", "remark", "hs_code", "item_description"]
      ["item_description"] "level" "remark"
      ⟨[Node.mk [("hs_code", .vStr "A0")] [] []], [(0, [0])]⟩
      [.vStr "2", .vStr "Tariff", .vStr "22", .vStr "B"] (by decide) (by decide)
  have h := h0.1
  rw [h]
  rfl

/-- C6: a visited node's document is emitted first; its notes are the node's
own notes followed by the notes of every ancestor whose level is 0 or 1 in
root-to-parent chain order (duplicates preserved); its breadcrumb joins the
ancestor descriptions and the node's own description with " > ". -/
theorem claim6_theorem (ancestors : List Node) (n : Node) (ds : List String) (d : String)
    (hanc : ancestors.map (fun a => a.get "item_description") = ds.map Value.vStr)
    (hn : n.get "item_description" = .vStr d) :
    (flattenNode ancestors n).head? = some (mkDoc ancestors n)
    ∧ (mkDoc ancestors n).notes
        = n.notes ++ (ancestors.filter (fun a => levelIs01 (a.get "level"))).flatMap Node.notes
    ∧ (mkDoc ancestors n).breadcrumb = String.intercalate " > " (ds ++ [d]) := by
  refine ⟨?_, ?_, ?_⟩
  · cases n with
    | mk f nt c => simp [flattenNode]
  · simp [mkDoc, inheritedNotes_eq]
  · have hmap : (ancestors ++ [n]).map (fun m => pyStr (m.get "item_description"))
        = ds ++ [d] := by
      rw [List.map_append]
      congr 1
      · have hm := congrArg (List.map pyStr) hanc
        rw [List.map_map, List.map_map] at hm
        have hds : List.map (pyStr ∘ Value.vStr) ds = ds := by
          have hid : (pyStr ∘ Value.vStr) = fun s : String => s := rfl
          rw [hid]
          simp
        rw [hds] at hm
        exact hm
      · simp [hn, pyStr]
    simp [mkDoc, hmap]

/-- C6, witness: a concrete chain A (level 0, notes ["x"]) above a node C with
its own note — notes come node-first then ancestor, breadcrumb "A > C". -/
theorem claim6_witness :
    (mkDoc [Node.mk [("item_description", .vStr "A"), ("level", .vInt 0)] ["x"] []]
        (Node.mk [("item_description", .vStr "C"), ("hs_code", .vStr "c1")] ["own"] [])).notes
      = ["own", "x"]
    ∧ (mkDoc [Node.mk [("item_description", .vStr "A"), ("level", .vInt 0)] ["x"] []]
        (Node.mk [("item_description", .vStr "C"), ("hs_code", .vStr "c1")] ["own"] [])).breadcrumb
      = "A > C" := by
  have h := claim6_theorem
      [Node.mk [("item_description", .vStr "A"), ("level", .vInt 0)] ["x"] []]
      (Node.mk [("item_description", .vStr "C"), ("hs_code", .vStr "c1")] ["own"] [])
      ["A"] "C" (by decide) (by decide)
  refine ⟨?_, ?_⟩
  · rw [h.2.1]
    rfl
  · rw [h.2.2]
    rfl

/-- C7: for each policy field, a truthy own value is used unchanged; otherwise
the first truthy value found scanning the ancestor chain nearest-to-farthest
is used; otherwise the field carries no truthy value (it keeps the node's
own falsy value, i.e. stays unset). -/
theorem claim7_theorem (ancestors : List Node) (n : Node) :
    policySpec "import_policy_text" n ancestors (mkDoc ancestors n).import_policy
    ∧ policySpec "export_policy_text" n ancestors (mkDoc ancestors n).export_policy := by
  have h1 : (mkDoc ancestors n).import_policy
      = resolvePolicy "import_policy_text" n ancestors := by
    simp [mkDoc]
  have h2 : (mkDoc ancestors n).export_policy
      = resolvePolicy "export_policy_text" n ancestors := by
    simp [mkDoc]
  rw [h1, h2]
  exact ⟨resolvePolicy_spec _ _ _, resolvePolicy_spec _ _ _⟩

/-- C8, counterexample: two structural rows with distinct classification codes
"12 34" and "1234" (differing only in whitespace) yield two flat records
whose ids are both "1234" — whitespace normalization merges them, so
pairwise-distinct input codes do not guarantee pairwise-distinct ids. -/
theorem claim8_counterexample :
    (Value.vStr "12 34" ≠ Value.vStr "1234")
    ∧ ((buildHierarchy ⟨["level", "remark", "hs_code", "item_description"],
        [[.vInt 0, .vStr "x", .vStr "12 34", .vStr "A"],
         [.vInt 0, .vStr "x", .vStr "1234", .vStr "B"]]⟩).map
        (fun p => (flatten p.2).map FlatDoc.id))
        = some [.vStr "1234", .vStr "1234"]
    ∧ ¬([Value.vStr "1234", Value.vStr "1234"].Nodup) := by
  refine ⟨by decide, rfl, by decide⟩

/-- C8, amended: building a forest from a table and flattening it yields
exactly one flat record per structural (non-note) row, and when the
whitespace-stripped string forms of the structural rows' classification
codes are pairwise distinct, the record ids are pairwise distinct. -/
theorem claim8_theorem (df : DataFrame) (lc rc : String) (ncs : Option (List String))
    (hs : String) (df' : DataFrame) (forest : List Node)
    (hb : buildHierarchy df lc rc ncs hs = some (df', forest)) :
    (flatten forest).length = (structuralRows df'.columns rc df'.rows).length
    ∧ (((structuralRows df'.columns rc df'.rows).map (rowId df'.columns)).Nodup →
        ((flatten forest).map FlatDoc.id).Nodup) := by
  unfold buildHierarchy at hb
  simp only [] at hb
  cases hi : (df.columns.map normHeader).findIdx? (fun c => c == hs) with
  | none =>
      rw [hi] at hb
      exact absurd hb (by simp)
  | some i =>
      rw [hi] at hb
      simp only [Option.some.injEq, Prod.mk.injEq] at hb
      obtain ⟨h1, h2⟩ := hb
      subst h1
      subst h2
      have hids := foldBuild_ids (df.columns.map normHeader)
        ((ncs.getD ["item_description"]).map normNoteCol) lc rc
        (df.rows.map (listModify normalizeHsCell i)) ⟨[], []⟩
      simp only [forestIdsList, Multiset.coe_nil, List.nil_append] at hids
      have hperm := Multiset.coe_eq_coe.mp (by simpa using hids)
      have hflat : ((flatten ((df.rows.map (listModify normalizeHsCell i)).foldl
          (buildStep (df.columns.map normHeader)
            ((ncs.getD ["item_description"]).map normNoteCol) lc rc)
          ⟨[], []⟩).root).map FlatDoc.id)
          = forestIdsList ((df.rows.map (listModify normalizeHsCell i)).foldl
            (buildStep (df.columns.map normHeader)
              ((ncs.getD ["item_description"]).map normNoteCol) lc rc)
            ⟨[], []⟩).root :=
        flattenForest_ids [] _
      constructor
      · have hlen := hperm.length_eq
        rw [← hflat] at hlen
        simpa using hlen
      · intro hnd
        have := (hperm.nodup_iff).mpr (by simpa using hnd)
        rw [← hflat] at this
        simpa using this

/-- C8, witness: a concrete table with one note row and two structural rows of
distinct stripped codes flattens to exactly two records with distinct ids. -/
theorem claim8_witness :
    (flatten (((buildHierarchy ⟨["level", "remark", "hs_code", "item_description"],
        [[.vInt 0, .vStr "x", .vStr "01", .vStr "A"],
         [.vNone, .vStr "Notes", .vStr "", .vStr "a note"],
         [.vInt 1, .vStr "x", .vStr "0101", .vStr "B"]]⟩).map Prod.snd).getD [])).length = 2
    ∧ ((flatten (((buildHierarchy ⟨["level", "remark", "hs_code", "item_description"],
        [[.vInt 0, .vStr "x", .vStr "01", .vStr "A"],
         [.vNone, .vStr "Notes", .vStr "", .vStr "a note"],
         [.vInt 1, .vStr "x", .vStr "0101", .vStr "B"]]⟩).map Prod.snd).getD [])).map
        FlatDoc.id).Nodup := by
  have h := claim8_theorem ⟨["level", "remark", "hs_code", "item_description"],
      [[.vInt 0, .vStr "x", .vStr "01", .vStr "A"],
       [.vNone, .vStr "Notes", .vStr "", .vStr "a note"],
       [.vInt 1, .vStr "x", .vStr "0101", .vStr "B"]]⟩ "level" "remark" none "hs_code"
      _ _ rfl
  exact ⟨h.1.trans (by rfl), h.2 (by decide)⟩

/-- C9, counterexample: the Hierarchy Builder returns a table different from
the one it consumed — the column name "HS Code" is normalized to "hs_code"
and the cell "12 34" is rewritten to "1234" — modelling the in-place
mutation of the caller's DataFrame (no copy is taken). -/
theorem claim9_counterexample :
    (buildHierarchy ⟨["HS Code"], [[.vStr "12 34"]]⟩).map Prod.fst
      = some ⟨["hs_code"], [[.vStr "1234"]]⟩
    ∧ (⟨["hs_code"], [[.vStr "1234"]]⟩ : DataFrame) ≠ ⟨["HS Code"], [[.vStr "12 34"]]⟩ := by
  exact ⟨rfl, by decide⟩

/-- C9, amended: the Hierarchy Builder mutates its input table in place —
column names are snake_case-normalized and the classification-code column
is rewritten with `str()` applied and whitespace stripped — while every
other cell is left unchanged (and the Inheritance Flattener, a pure
function of the forest, leaves the forest unchanged). -/
theorem claim9_theorem (df : DataFrame) (lc rc : String) (ncs : Option (List String))
    (hs : String) (i : Nat) (df' : DataFrame) (forest : List Node)
    (hi : (df.columns.map normHeader).findIdx? (fun c => c == hs) = some i)
    (hb : buildHierarchy df lc rc ncs hs = some (df', forest)) :
    df'.columns = df.columns.map normHeader
    ∧ df'.rows.length = df.rows.length
    ∧ (∀ (j k : Nat), k ≠ i → (df'.rows[j]?.bind (fun r => r[k]?))
        = (df.rows[j]?.bind (fun r => r[k]?)))
    ∧ (∀ (j : Nat), (df'.rows[j]?.bind (fun r => r[i]?))
        = (df.rows[j]?.bind (fun r => r[i]?)).map normalizeHsCell) := by
  unfold buildHierarchy at hb
  simp only [] at hb
  rw [hi] at hb
  simp only [Option.some.injEq, Prod.mk.injEq] at hb
  obtain ⟨h1, h2⟩ := hb
  subst h1
  refine ⟨rfl, by simp, ?_, ?_⟩
  · intro j k hk
    simp only [List.getElem?_map]
    cases hrow : df.rows[j]? with
    | none => rfl
    | some r => simp [listModify_getElem?, hk]
  · intro j
    simp only [List.getElem?_map]
    cases hrow : df.rows[j]? with
    | none => rfl
    | some r => simp [listModify_getElem?]

/-- C9, witness: the mutation frame at a concrete one-column table — the
classification-code cell is whitespace-stripped in place. -/
theorem claim9_witness :
    ((⟨["hs_code"], [[Value.vStr "1234"]]⟩ : DataFrame).rows[0]?.bind (fun r => r[0]?))
      = ((⟨["HS Code"], [[Value.vStr "12 34"]]⟩ : DataFrame).rows[0]?.bind
          (fun r => r[0]?)).map normalizeHsCell := by
  have h := claim9_theorem ⟨["HS Code"], [[.vStr "12 34"]]⟩ "level" "remark" none "hs_code"
      0 ⟨["hs_code"], [[.vStr "1234"]]⟩ [Node.mk [("hs_code", .vStr "1234")] [] []]
      rfl rfl
  exact h.2.2.2 0

end Cargoa
